import Mathlib

/-
Verification of the `non-diatonic` probe-tone analysis notebook
(`analysis_probe_tone.ipynb`).  The notebook builds the 24
Krumhansl-Kessler key profiles by list rotation, computes their 24x24
Pearson correlation matrix, enumerates stimulus conditions by a nested
cross-product over globbed file lists, and loads/filters participant
response logs.  Numbers are embedded exactly: notebook floats become
rationals, Pearson correlations (which involve a square root) live in the
reals.  The external filesystem (`glob.glob`) is modelled as an explicit
function from glob patterns to file lists, and a tabular response row as a
valuation from column names to cell values.
-/

/-- KK82 C-major profile (notebook constant `KK_major`). -/
def KK_major : List ℚ := [6.35, 2.23, 3.48, 2.33, 4.38, 4.09, 2.52, 5.19, 2.39, 3.66, 2.29, 2.88]

/-- KK82 C-minor profile (notebook constant `KK_minor`). -/
def KK_minor : List ℚ := [6.33, 2.68, 3.52, 5.38, 2.60, 3.53, 2.54, 4.75, 3.98, 2.69, 3.34, 3.17]

/-- The notebook's `modes = ['major', 'minor']`. -/
def modes : List String := ["major", "minor"]

/-- The start/stop bound of the Python slices `l[k:]` and `l[:k]` as a drop/take
count: a nonnegative `k` is used as is (clamped by drop/take themselves), a
negative `k` counts from the end, clamped at 0 (`Int.toNat` clamps). -/
def sliceIndex (l : List α) (k : ℤ) : ℕ :=
  if 0 ≤ k then k.toNat else ((l.length : ℤ) + k).toNat

/-- Notebook `rotate(l, k)`, i.e. `l[k:] + l[:k]` with Python slice semantics. -/
def rotate (l : List α) (k : ℤ) : List α :=
  l.drop (sliceIndex l k) ++ l.take (sliceIndex l k)

/-- Notebook `profile(pitch_class, mode)`: rotate the major base if
`mode == 'major'`, else the minor base.  No validation is performed. -/
def profile (pitch_class : ℤ) (mode : String) : List ℚ :=
  if mode = "major" then rotate KK_major pitch_class else rotate KK_minor pitch_class

/-- Notebook `key_ratings = [profile(i, m) for i in range(12) for m in modes]`:
outer loop over tonics 0..11, inner loop over modes. -/
def key_ratings : List (List ℚ) :=
  (List.range 12).flatMap fun i => modes.map fun m => profile i m

/-- Pointwise product sum of two equal-length numeric lists (the summation
inside Pearson's r; excess elements of either list are ignored). -/
def dot : List ℚ → List ℚ → ℚ
  | a :: xs, b :: ys => a * b + dot xs ys
  | _, _ => 0

/-- Arithmetic mean of a list of rationals. -/
def mean (l : List ℚ) : ℚ := l.sum / l.length

/-- Deviations from the mean. -/
def dev (l : List ℚ) : List ℚ := l.map fun x => x - mean l

/-- Unnormalised covariance sum `Σ (x_i - x̄) (y_i - ȳ)`; `cov x x` is the
(unnormalised) variance sum of `x`. -/
def cov (x y : List ℚ) : ℚ := dot (dev x) (dev y)

/-- The value `scipy.stats.pearsonr(x, y)[0]`, the Pearson correlation coefficient
`Σ dx dy / (sqrt (Σ dx²) · sqrt (Σ dy²))`, in exact real arithmetic. -/
noncomputable def pearson (x y : List ℚ) : ℝ :=
  (cov x y : ℝ) / (Real.sqrt (cov x x) * Real.sqrt (cov y y))

/-- Notebook `key_distances`: the 24x24 DataFrame whose row `i` is produced by
the outer comprehension (`key2 = key_ratings[i]`) and column `j` by the inner
one (`key1 = key_ratings[j]`), holding `pearsonr(key1, key2)[0]`. -/
noncomputable def key_distances (i j : Fin 24) : ℝ :=
  pearson (key_ratings.getD j.val []) (key_ratings.getD i.val [])

/-- Modelled from the spec and the scipy library interface: the notebook
calls the external `scipy.stats.pearsonr` with no guard of its own; for a
zero-variance input that library call returns IEEE NaN (and raises
nothing), modelled here as `none`, while a defined correlation is `some r`. -/
noncomputable def pearsonrFloat (x y : List ℚ) : Option ℝ :=
  if cov x x = 0 ∨ cov y y = 0 then none else some (pearson x y)

/-- Glob pattern for an experiment's context stimuli (notebook cell 6). -/
def contextsPattern (e : String) : String :=
  "sounds/" ++ e ++ "/contexts/" ++ "*.wav"

/-- Glob pattern for an experiment's target stimuli (notebook cell 6). -/
def targetsPattern (e : String) : String :=
  "sounds/" ++ e ++ "/targets/" ++ "*.wav"

/-- The notebook's condition loop: for each experiment, glob the contexts
and the targets and append one `[experiment, context, target]` triple per
(context, target) pair, contexts in the outer loop.  The filesystem
(`glob.glob`) is modelled as an explicit function `g` from glob pattern to
the returned file list, in the order the filesystem yields it. -/
def conditions (g : String → List String) (experiments : List String) :
    List (String × String × String) :=
  experiments.flatMap fun e =>
    (g (contextsPattern e)).flatMap fun c =>
      (g (targetsPattern e)).map fun t => (e, c, t)

/-- A concrete directory listing for experiment `exp1`, with the context
files returned in non-sorted order, as a filesystem may. -/
def listingExp1 : String → List String := fun s =>
  if s = contextsPattern "exp1" then
    ["sounds/exp1/contexts/b.wav", "sounds/exp1/contexts/a.wav"]
  else if s = targetsPattern "exp1" then
    ["sounds/exp1/targets/x.wav", "sounds/exp1/targets/y.wav"]
  else []

/-- The seven columns the notebook projects the concatenated response log
onto (notebook cell 8). -/
def selectedCols : List String :=
  ["exp_no", "context", "probe", "sld_rating.response", "sld_rating.rt",
   "participant", "date"]

/-- Projection of one parsed response-log row (modelled as a valuation from
column name to cell value) onto the selected columns, in column order. -/
def projectRow (row : String → String) : List (String × String) :=
  selectedCols.map fun col => (col, row col)

/-- Notebook cell 8: for each response file drop the rows at positional
index 0 and 1 (practice trials), concatenate all files' remaining rows in
the order given, and project every row onto `selectedCols`. -/
def data (files : List (List (String → String))) : List (List (String × String)) :=
  (files.flatMap fun f => f.drop 2).map projectRow

theorem dot_comm : ∀ (x y : List ℚ), dot x y = dot y x
  | [], [] => rfl
  | [], _ :: _ => rfl
  | _ :: _, [] => rfl
  | a :: xs, b :: ys => by simp only [dot, dot_comm xs ys]; ring

theorem cov_comm (x y : List ℚ) : cov x y = cov y x := dot_comm _ _

theorem pearson_comm (x y : List ℚ) : pearson x y = pearson y x := by
  unfold pearson; rw [cov_comm, mul_comm]

theorem dot_self_append (u v : List ℚ) :
    dot (u ++ v) (u ++ v) = dot u u + dot v v := by
  induction u with
  | nil => simp [dot]
  | cons a u ih => simp only [List.cons_append, dot, List.append_eq, ih]; ring

theorem rotSplit_sum (l : List ℚ) (a : ℕ) : (l.drop a ++ l.take a).sum = l.sum := by
  rw [List.sum_append, add_comm, ← List.sum_append, List.take_append_drop]

theorem rotSplit_length (l : List α) (a : ℕ) :
    (l.drop a ++ l.take a).length = l.length := by
  simp only [List.length_append, List.length_drop, List.length_take]; omega

theorem mean_rotSplit (l : List ℚ) (a : ℕ) : mean (l.drop a ++ l.take a) = mean l := by
  rw [mean, mean, rotSplit_sum, rotSplit_length]

theorem dev_rotSplit (l : List ℚ) (a : ℕ) :
    dev (l.drop a ++ l.take a) = (dev l).drop a ++ (dev l).take a := by
  rw [dev, mean_rotSplit, List.map_append]
  rw [dev, List.map_drop, List.map_take]

theorem cov_rotSplit_self (l : List ℚ) (a : ℕ) :
    cov (l.drop a ++ l.take a) (l.drop a ++ l.take a) = cov l l := by
  rw [cov, dev_rotSplit, dot_self_append, cov]
  conv_rhs => rw [← List.take_append_drop a (dev l)]
  rw [dot_self_append, add_comm]

theorem cov_rotate_self (l : List ℚ) (k : ℤ) :
    cov (rotate l k) (rotate l k) = cov l l := cov_rotSplit_self l _

theorem cov_profile_pos (k : ℤ) (m : String) :
    0 < cov (profile k m) (profile k m) := by
  rw [profile]
  split
  · rw [cov_rotate_self]; norm_num [cov, dev, dot, mean, KK_major]
  · rw [cov_rotate_self]; norm_num [cov, dev, dot, mean, KK_minor]

theorem mem_key_ratings {x : List ℚ} (hx : x ∈ key_ratings) :
    ∃ (k : ℤ) (m : String), x = profile k m := by
  simp only [key_ratings, List.mem_flatMap, List.mem_map, List.mem_range] at hx
  obtain ⟨i, _, m, _, rfl⟩ := hx
  exact ⟨i, m, rfl⟩

theorem cov_key_ratings_pos (i : Fin 24) :
    0 < cov (key_ratings.getD i.val []) (key_ratings.getD i.val []) := by
  have hlen : key_ratings.length = 24 := rfl
  have hlt : i.val < key_ratings.length := by rw [hlen]; exact i.isLt
  rw [List.getD_eq_getElem?_getD, List.getElem?_eq_getElem hlt, Option.getD_some]
  obtain ⟨k, m, he⟩ := mem_key_ratings (List.getElem_mem hlt)
  rw [he]
  exact cov_profile_pos k m

theorem pearson_self (x : List ℚ) (h : 0 < cov x x) : pearson x x = 1 := by
  have h0 : (0 : ℝ) < (cov x x : ℝ) := by exact_mod_cast h
  rw [pearson, Real.mul_self_sqrt h0.le, div_self h0.ne']

theorem rotate_getElem? (l : List α) (k : ℕ) (hk : k ≤ l.length) (i : ℕ)
    (hi : i < l.length) : (rotate l (k : ℤ))[i]? = l[(i + k) % l.length]? := by
  have hs : sliceIndex l (k : ℤ) = k := by
    rw [sliceIndex, if_pos (Int.natCast_nonneg k)]
    exact Int.toNat_natCast k
  rw [rotate, hs]
  rcases Nat.lt_or_ge i (l.length - k) with h | h
  · rw [List.getElem?_append_left (by rw [List.length_drop]; omega),
        List.getElem?_drop, Nat.mod_eq_of_lt (by omega)]
    congr 1
    omega
  · rw [List.getElem?_append_right (by rw [List.length_drop]; omega),
        List.length_drop, List.getElem?_take_of_lt (by omega),
        Nat.mod_eq_sub_mod (by omega), Nat.mod_eq_of_lt (by omega)]
    congr 1
    omega

theorem rotate_zero (l : List α) : rotate l 0 = l := by
  simp [rotate, sliceIndex]

theorem rotate_of_length_le (l : List α) (k : ℤ) (h : (l.length : ℤ) ≤ k) :
    rotate l k = l := by
  have h0 : 0 ≤ k := le_trans (Int.natCast_nonneg _) h
  have hlen : l.length ≤ k.toNat := by omega
  rw [rotate, sliceIndex, if_pos h0, List.drop_eq_nil_of_le hlen,
      List.take_of_length_le hlen, List.nil_append]

theorem rotate_length (l : List α) (k : ℤ) : (rotate l k).length = l.length :=
  rotSplit_length l _

/-- Claim C1: for every tonic and mode in the declared mode list the built
profile is the left rotation of the base vector selected by the mode, with
`values[i] = base[(i + tonic) % 12]`; in particular `profile 0 "major"` is
`KK_major` unchanged and `profile 1 "major"` is the expected rotation. -/
theorem profile_left_rotation :
    (∀ (t i : Fin 12) (mo : String), mo ∈ modes →
      (profile (t.val : ℤ) mo)[i.val]? =
        (if mo = "major" then KK_major else KK_minor)[(i.val + t.val) % 12]?) ∧
    profile 0 "major" = KK_major ∧
    profile 1 "major" =
      [2.23, 3.48, 2.33, 4.38, 4.09, 2.52, 5.19, 2.39, 3.66, 2.29, 2.88, 6.35] := by
  refine ⟨?_, rfl, rfl⟩
  intro t i mo _
  have ht := t.isLt
  have hi := i.isLt
  have key : ∀ (l : List ℚ), l.length = 12 →
      (rotate l ((t.val : ℕ) : ℤ))[i.val]? = l[(i.val + t.val) % 12]? := by
    intro l hl
    have h1 : t.val ≤ l.length := by omega
    have h2 : i.val < l.length := by omega
    have h3 := rotate_getElem? l t.val h1 i.val h2
    rwa [hl] at h3
  rw [profile]
  by_cases hmo : mo = "major"
  · rw [if_pos hmo, if_pos hmo]
    exact key KK_major rfl
  · rw [if_neg hmo, if_neg hmo]
    exact key KK_minor rfl

/-- Claim C1 witness: the rotation law evaluated at tonic 1, mode major,
index 0. -/
theorem profile_left_rotation_witness :
    "major" ∈ modes ∧ (profile 1 "major")[0]? = KK_major[1 % 12]? :=
  ⟨by decide, profile_left_rotation.1 1 0 "major" (by decide)⟩

/-- Claim C2: the notebook's full enumeration `key_ratings` has exactly 24
entries and the entry at list index `2 * t + m` (`m = 0` major, `m = 1`
minor) is `profile t mode`. -/
theorem key_ratings_enumeration :
    key_ratings.length = 24 ∧
    ∀ (t : Fin 12) (m : Fin 2),
      key_ratings.getD (2 * t.val + m.val) [] =
        profile (t.val : ℤ) (modes.getD m.val "") := by
  refine ⟨rfl, ?_⟩
  intro t m
  fin_cases t <;> fin_cases m <;> rfl

/-- Claim C6 counterexample: an out-of-range tonic does not fail; `profile`
is a total function and `profile 12 "major"` returns the unrotated base
vector instead of raising an InvalidArgument error. -/
theorem profile_out_of_range_cex : profile 12 "major" = KK_major := rfl

/-- Claim C6 amended: `profile` performs no tonic validation and never
fails; for every integer tonic and any mode string it returns an ordinary
length-12 profile. -/
theorem profile_total (k : ℤ) (m : String) : (profile k m).length = 12 := by
  rw [profile]
  split <;> rw [rotate_length] <;> rfl

/-- Claim C10: for every integer tonic at least 12, `profile` raises no
error and returns the completely unrotated base vector, i.e. the same list
as `profile 0 mode`, because `l[k:]` is empty and `l[:k]` is the whole
12-element list when `k ≥ 12`. -/
theorem profile_tonic_ge_twelve_unrotated (k : ℤ) (m : String) (h : 12 ≤ k) :
    profile k m = profile 0 m := by
  have hmaj : (KK_major.length : ℤ) ≤ k := by
    have h12 : KK_major.length = 12 := rfl
    rw [h12]; exact_mod_cast h
  have hmin : (KK_minor.length : ℤ) ≤ k := by
    have h12 : KK_minor.length = 12 := rfl
    rw [h12]; exact_mod_cast h
  rw [profile, profile]
  by_cases hm : m = "major"
  · rw [if_pos hm, if_pos hm, rotate_of_length_le _ _ hmaj, rotate_zero]
  · rw [if_neg hm, if_neg hm, rotate_of_length_le _ _ hmin, rotate_zero]

/-- Claim C10 witness: tonic 12 in minor aliases tonic 0. -/
theorem profile_tonic_ge_twelve_unrotated_witness :
    (12 : ℤ) ≤ 12 ∧ profile 12 "minor" = profile 0 "minor" :=
  ⟨by decide, profile_tonic_ge_twelve_unrotated 12 "minor" (by decide)⟩

/-- Claim C3: the 24x24 correlation matrix is symmetric; every pair of
entries `M[i][j]`, `M[j][i]` agrees within 1e-9 (here: they are equal in
exact arithmetic, so the difference is 0). -/
theorem key_distances_symmetric (i j : Fin 24) :
    |key_distances i j - key_distances j i| ≤ 1 / 10 ^ 9 := by
  rw [key_distances, key_distances, pearson_comm, sub_self, abs_zero]
  norm_num

/-- Claim C4: every diagonal entry of the 24x24 correlation matrix equals 1
within 1e-9 (here: exactly 1 in exact arithmetic, so the difference is 0);
the self-covariance of each of the 24 profiles is strictly positive. -/
theorem key_distances_diag_one (i : Fin 24) :
    |key_distances i i - 1| ≤ 1 / 10 ^ 9 := by
  rw [key_distances, pearson_self _ (cov_key_ratings_pos i), sub_self, abs_zero]
  norm_num

theorem cov_zero12 :
    cov [0, 0, 0, 0, 0, 0, 0, 0, 0, 0, 0, 0] [0, 0, 0, 0, 0, 0, 0, 0, 0, 0, 0, 0]
      = (0 : ℚ) := by
  norm_num [cov, dev, dot, mean]

/-- Claim C5 counterexample: on a constant (zero-variance) input vector the
correlation computation silently produces NaN (modelled `none`); no
NumericallyUndefined error exists anywhere in the code. -/
theorem pearson_zero_variance_cex :
    pearsonrFloat [0, 0, 0, 0, 0, 0, 0, 0, 0, 0, 0, 0]
      [0, 0, 0, 0, 0, 0, 0, 0, 0, 0, 0, 0] = none := by
  rw [pearsonrFloat, if_pos (Or.inl cov_zero12)]

/-- Claim C5 amended: whenever at least one input vector has zero variance,
the unguarded correlation call returns NaN (modelled `none`) silently
instead of raising any error. -/
theorem pearson_zero_variance_nan (x y : List ℚ)
    (h : cov x x = 0 ∨ cov y y = 0) : pearsonrFloat x y = none := by
  rw [pearsonrFloat, if_pos h]

/-- Claim C5 witness: the zero vector of length 12 has zero variance and
yields NaN. -/
theorem pearson_zero_variance_nan_witness :
    (cov [0, 0, 0, 0, 0, 0, 0, 0, 0, 0, 0, 0] [0, 0, 0, 0, 0, 0, 0, 0, 0, 0, 0, 0]
        = (0 : ℚ) ∨
      cov [0, 0, 0, 0, 0, 0, 0, 0, 0, 0, 0, 0] [0, 0, 0, 0, 0, 0, 0, 0, 0, 0, 0, 0]
        = (0 : ℚ)) ∧
    pearsonrFloat [0, 0, 0, 0, 0, 0, 0, 0, 0, 0, 0, 0]
      [0, 0, 0, 0, 0, 0, 0, 0, 0, 0, 0, 0] = none :=
  ⟨Or.inl cov_zero12, pearson_zero_variance_nan _ _ (Or.inl cov_zero12)⟩

theorem crossOne_length (e : String) (cs ts : List String) :
    (cs.flatMap fun x => ts.map fun y => (e, x, y)).length =
      cs.length * ts.length := by
  induction cs with
  | nil => simp
  | cons c cs ih =>
      simp only [List.flatMap_cons, List.length_append, List.length_map, ih,
        List.length_cons]
      ring

theorem crossOne_getElem? (e : String) (ts : List String) :
    ∀ (cs : List String) (j k : ℕ) (c t : String),
      cs[j]? = some c → ts[k]? = some t →
      (cs.flatMap fun x => ts.map fun y => (e, x, y))[j * ts.length + k]? =
        some (e, c, t)
  | [], j, k, c, t, hc, ht => by simp at hc
  | c0 :: cs, 0, k, c, t, hc, ht => by
      obtain rfl : c0 = c := by simpa using hc
      have hk : k < ts.length := by
        by_contra hk'
        rw [List.getElem?_eq_none (Nat.le_of_not_lt hk')] at ht
        exact Option.noConfusion ht
      rw [Nat.zero_mul, Nat.zero_add, List.flatMap_cons,
          List.getElem?_append_left (by rw [List.length_map]; exact hk),
          List.getElem?_map, ht]
      rfl
  | c0 :: cs, j + 1, k, c, t, hc, ht => by
      rw [List.getElem?_cons_succ] at hc
      have hidx : (j + 1) * ts.length + k = ts.length + (j * ts.length + k) := by
        ring
      rw [hidx, List.flatMap_cons,
          List.getElem?_append_right (by rw [List.length_map]; exact Nat.le_add_right _ _),
          List.length_map, Nat.add_sub_cancel_left]
      exact crossOne_getElem? e ts cs j k c t hc ht

theorem conditions_singleton (g : String → List String) (e : String) :
    conditions g [e] =
      (g (contextsPattern e)).flatMap fun c =>
        (g (targetsPattern e)).map fun t => (e, c, t) := by
  simp [conditions]

/-- Claim C7 counterexample: the notebook crosses the globbed lists exactly
in the order the filesystem returns them; with the contexts listed as
[b, a] the output starts with the b-context conditions, not the
sorted-then-crossed order the claim demands. -/
theorem conditions_not_sorted_cex :
    conditions listingExp1 ["exp1"] =
      [("exp1", "sounds/exp1/contexts/b.wav", "sounds/exp1/targets/x.wav"),
       ("exp1", "sounds/exp1/contexts/b.wav", "sounds/exp1/targets/y.wav"),
       ("exp1", "sounds/exp1/contexts/a.wav", "sounds/exp1/targets/x.wav"),
       ("exp1", "sounds/exp1/contexts/a.wav", "sounds/exp1/targets/y.wav")] ∧
    conditions listingExp1 ["exp1"] ≠
      [("exp1", "sounds/exp1/contexts/a.wav", "sounds/exp1/targets/x.wav"),
       ("exp1", "sounds/exp1/contexts/a.wav", "sounds/exp1/targets/y.wav"),
       ("exp1", "sounds/exp1/contexts/b.wav", "sounds/exp1/targets/x.wav"),
       ("exp1", "sounds/exp1/contexts/b.wav", "sounds/exp1/targets/y.wav")] :=
  ⟨rfl, by decide⟩

/-- Claim C7 amended: for each experiment the generated conditions are
exactly the full cross-product of the globbed context files with the
globbed target files, tagged with the experiment id, in
listing-then-crossed order (contexts outer, targets inner, no sorting):
the condition at flat index `j * |targets| + k` pairs the j-th listed
context with the k-th listed target, and there are `|contexts| * |targets|`
conditions. -/
theorem conditions_cross_listing_order (g : String → List String) (e : String)
    (j k : ℕ) (c t : String) (hc : (g (contextsPattern e))[j]? = some c)
    (ht : (g (targetsPattern e))[k]? = some t) :
    (conditions g [e])[j * (g (targetsPattern e)).length + k]? = some (e, c, t) ∧
    (conditions g [e]).length =
      (g (contextsPattern e)).length * (g (targetsPattern e)).length := by
  rw [conditions_singleton]
  exact ⟨crossOne_getElem? e _ _ j k c t hc ht, crossOne_length e _ _⟩

/-- Claim C7 witness: the cross-product law evaluated on the concrete
exp1 listing at j = 0, k = 1. -/
theorem conditions_cross_listing_order_witness :
    (listingExp1 (contextsPattern "exp1"))[0]? = some "sounds/exp1/contexts/b.wav" ∧
    (listingExp1 (targetsPattern "exp1"))[1]? = some "sounds/exp1/targets/y.wav" ∧
    (conditions listingExp1 ["exp1"])[0 * (listingExp1 (targetsPattern "exp1")).length + 1]? =
      some ("exp1", "sounds/exp1/contexts/b.wav", "sounds/exp1/targets/y.wav") ∧
    (conditions listingExp1 ["exp1"]).length =
      (listingExp1 (contextsPattern "exp1")).length *
        (listingExp1 (targetsPattern "exp1")).length :=
  ⟨rfl, rfl,
    (conditions_cross_listing_order listingExp1 "exp1" 0 1
      "sounds/exp1/contexts/b.wav" "sounds/exp1/targets/y.wav" rfl rfl).1,
    (conditions_cross_listing_order listingExp1 "exp1" 0 1
      "sounds/exp1/contexts/b.wav" "sounds/exp1/targets/y.wav" rfl rfl).2⟩

theorem crossOne_targets_nil (e : String) (cs : List String) :
    (cs.flatMap fun x => ([] : List String).map fun y => (e, x, y)) = [] := by
  induction cs with
  | nil => rfl
  | cons c cs ih => simp [List.flatMap_cons, ih]

/-- Claim C8: an experiment whose contexts (or targets) glob comes back
empty (missing or empty directory) contributes no conditions and raises no
failure, and the conditions of the surrounding experiments are exactly
those produced without it. -/
theorem conditions_missing_dir (g : String → List String) (pre post : List String)
    (e : String)
    (h : g (contextsPattern e) = [] ∨ g (targetsPattern e) = []) :
    conditions g (pre ++ e :: post) = conditions g pre ++ conditions g post := by
  rw [conditions, List.flatMap_append, List.flatMap_cons]
  rcases h with h | h
  · rw [h, List.flatMap_nil, List.nil_append]
    rfl
  · rw [h, crossOne_targets_nil, List.nil_append]
    rfl

/-- Claim C8 witness: `expMissing` has no listed stimuli under the concrete
listing, and dropping it leaves exp1's conditions untouched. -/
theorem conditions_missing_dir_witness :
    (listingExp1 (contextsPattern "expMissing") = [] ∨
      listingExp1 (targetsPattern "expMissing") = []) ∧
    conditions listingExp1 ([] ++ "expMissing" :: ["exp1"]) =
      conditions listingExp1 [] ++ conditions listingExp1 ["exp1"] :=
  ⟨Or.inl rfl,
    conditions_missing_dir listingExp1 [] ["exp1"] "expMissing" (Or.inl rfl)⟩

/-- Claim C9: the response loader drops exactly the first 2 rows of each
file positionally, concatenates the files' remaining rows in the order the
files are given while preserving per-file row order, and projects every
remaining row to exactly the seven selected columns; a file with rows
[practice1, practice2, trial1, trial2, trial3] contributes exactly
[trial1, trial2, trial3]. -/
theorem data_loader_spec :
    (∀ (fs : List (List (String → String))) (f : List (String → String)),
      data (fs ++ [f]) = data fs ++ (f.drop 2).map projectRow) ∧
    (∀ r1 r2 r3 r4 r5 : String → String,
      data [[r1, r2, r3, r4, r5]] = [projectRow r3, projectRow r4, projectRow r5]) ∧
    (∀ row : String → String, (projectRow row).map Prod.fst = selectedCols) := by
  refine ⟨?_, ?_, ?_⟩
  · intro fs f
    simp [data, List.flatMap_append]
  · intro r1 r2 r3 r4 r5
    rfl
  · intro row
    rfl
